import Mathlib

/-!
Verification development for the request-queuing (RQ) caching share of a
file server that mediates between a local cache and a remote asset API.

The definitions below are a shallow embedding of the JavaScript sources:
`RQShare` (download coordinator, list cache) and `DAMShare` (chunked
uploader, dot-file guard).  JavaScript object maps are embedded as total
functions with an `Option`/default value, callbacks as identifiers, and
the asynchronous chunk-upload loop as a fuel-indexed step function whose
result carries the trace of emitted events and issued HTTP requests.
-/

namespace NodeSmbServer

/-- Update one key of a map embedded as a total function. -/
def setMap (f : String → α) (k : String) (v : α) : String → α :=
  fun x => if x = k then v else f x

/-- Collect the last path segment (the run of characters after the final
slash); `cur` accumulates the segment seen so far. -/
def lastSegmentAux (cur : List Char) : List Char → List Char
  | [] => cur
  | c :: rest => if c = '/' then lastSegmentAux [] rest else lastSegmentAux (cur ++ [c]) rest

/-- Modelled from the spec: `RQTree.isTempFileName` (lib/backends/rq/tree.js)
is not among the provided sources; per the spec's Path Classifier a temp
path is one whose last path segment begins with a period. -/
def isTempFileName (p : String) : Bool :=
  match lastSegmentAux [] p.data with
  | '.' :: _ => true
  | _ => false

/-! ## RQShare download coordinator

State of the share's `downloadingFiles` and `waits` maps.  A JavaScript
object lookup of an absent key yields `undefined`; `downloadingFiles` is
only ever consulted for truthiness so it is embedded as a `Bool`-valued
map, while `waits` distinguishes an absent entry from an empty list.
Waiter callbacks are embedded as identifiers (`Nat`); an operation
returns the list of callbacks it invokes, in invocation order. -/

structure RQShareState where
  downloadingFiles : String → Bool
  waits : String → Option (List Nat)

/-- `RQShare.prototype.isDownloading`: temp files are never downloading;
otherwise look up the `downloadingFiles` map. -/
def isDownloading (s : RQShareState) (path : String) : Bool :=
  if !(isTempFileName path) then s.downloadingFiles path else false

/-- The waiter callbacks currently registered for a path (empty when the
`waits` entry is absent). -/
def waitersOf (s : RQShareState) (path : String) : List Nat :=
  (s.waits path).getD []

/-- `RQShare.prototype.notifyDownloadComplete`: invoke every waiting
callback for the path in registration order, then reset the list. -/
def notifyDownloadComplete (s : RQShareState) (path : String) : RQShareState × List Nat :=
  match s.waits path with
  | some ws => ({ s with waits := setMap s.waits path (some []) }, ws)
  | none => (s, [])

/-- `RQShare.prototype.waitOnDownload`: while the path is downloading,
register the callback as a waiter; otherwise invoke it immediately. -/
def waitOnDownload (s : RQShareState) (path : String) (cb : Nat) : RQShareState × List Nat :=
  if isDownloading s path then
    let cur := (s.waits path).getD []
    ({ s with waits := setMap s.waits path (some (cur ++ [cb])) }, [])
  else
    (s, [cb])

/-- `RQShare.prototype.setDownloading`: record the new downloading flag;
when the path transitions from downloading to not-downloading, notify all
waiters. -/
def setDownloading (s : RQShareState) (path : String) (dl : Bool) : RQShareState × List Nat :=
  let was := isDownloading s path
  let s' : RQShareState := { s with downloadingFiles := setMap s.downloadingFiles path dl }
  if was && !dl then notifyDownloadComplete s' path else (s', [])

/-! ## RQShare list cache -/

/-- A JavaScript configuration value, to the extent the `RQShare`
constructor inspects it (`typeof v === 'number'`). -/
inductive JSVal where
  | num (n : Int)
  | str (s : String)
  | boolean (b : Bool)
  | undef
deriving DecidableEq, Repr

/-- The `RQShare` constructor's content-cache TTL: the configured value
when it is a number, `30000` otherwise. -/
def contentCacheTTLOf : JSVal → Int
  | .num n => n
  | _ => 30000

/-- One entry of `RQShare.listCache`: creation time and the cached file
names of a folder, in stored order. -/
structure ListCacheEntry where
  timestamp : Int
  files : List String
deriving DecidableEq, Repr

/-- The sequential rehydration loop inside `RQShare.prototype.getListCache`
(`addFile`): open each cached name in stored order, aborting with the
first error. -/
def openAll (tree : String → Except ε φ) : List String → Except ε (List φ)
  | [] => .ok []
  | n :: rest =>
    match tree n with
    | .error e => .error e
    | .ok f =>
      match openAll tree rest with
      | .error e => .error e
      | .ok fs => .ok (f :: fs)

/-- `RQShare.prototype.getListCache`: a hit returns the cached names
rehydrated through `tree.open`; an entry older than the TTL is cleared
and the lookup is a miss (`.ok none`).  Returns the updated cache map
paired with the callback's outcome. -/
def getListCache (cache : String → Option ListCacheEntry) (ttl now : Int)
    (tree : String → Except ε φ) (path : String) :
    (String → Option ListCacheEntry) × Except ε (Option (List φ)) :=
  match cache path with
  | none => (cache, .ok none)
  | some entry =>
    if now - entry.timestamp > ttl then
      (setMap cache path none, .ok none)
    else
      (cache,
        match openAll tree entry.files with
        | .error e => .error e
        | .ok fs => .ok (some fs))

/-! ## Overlay-tree existence check -/

/-- Modelled from the spec: `RQTree.exists` (lib/backends/rq/tree.js) is
not among the provided sources.  Per the spec's visibility rules, a temp
path consults only the local cache; a locally cached path is visible; a
path with a queued DELETE is not visible; otherwise the remote is
consulted, and a remote failure reports nonexistence instead of an
error. -/
def rqExists (isTemp localExists deleteQueued : Bool) (remote : Except Unit Bool) :
    Except Unit Bool :=
  if isTemp then .ok localExists
  else if localExists then .ok true
  else if deleteQueued then .ok false
  else
    match remote with
    | .error _ => .ok false
    | .ok found => .ok found

/-! ## Request queue coalescing -/

/-- A queued remote mutation method. -/
inductive QMethod where
  | put
  | post
  | delete
deriving DecidableEq, Repr

/-- Modelled from the spec: the request queue's coalescing table (the
`RequestQueue` source is not among the provided sources).  Given the
existing entry for a path and an incoming method, produce the resulting
entry (`none` removes the entry). -/
def coalesceMethod : Option QMethod → QMethod → Option QMethod
  | none, m => some m
  | some .put, .put => some .put
  | some .post, .put => some .post
  | some .delete, .put => some .post
  | some .put, .post => some .put
  | some .post, .post => some .post
  | some .delete, .post => some .post
  | some .put, .delete => none
  | some .post, .delete => some .delete
  | some .delete, .delete => some .delete

/-- Enqueue one method for a path, applying the coalescing table to the
path's existing entry. -/
def enqueueMethod (q : String → Option QMethod) (p : String) (m : QMethod) :
    String → Option QMethod :=
  setMap q p (coalesceMethod (q p) m)

/-- Modelled from the spec: `RQTree.queueData` with method MOVE (the
`RQTree` source is not among the provided sources).  Per the spec's MOVE
semantics and its temp-path table: temp source to temp destination is a
no-op; temp source to normal destination enqueues a PUT for the
destination; normal source to temp destination clears a queued source
entry (or enqueues a DELETE for a cached, unqueued source); normal to
normal removes the source entry, enqueues DELETE for the source and PUT
for the destination.  `srcCached` tells whether the source has a cached
local copy. -/
def queueDataMove (q : String → Option QMethod) (srcCached : Bool) (src dst : String) :
    String → Option QMethod :=
  if isTempFileName src then
    if isTempFileName dst then q
    else enqueueMethod q dst .put
  else if isTempFileName dst then
    match q src with
    | some _ => setMap q src none
    | none => if srcCached then enqueueMethod q src .delete else q
  else
    enqueueMethod (enqueueMethod (setMap q src none) src .delete) dst .put

/-! ## DAMShare dot-file guard

`checkDotFile` tests the path against the regular expression `/\/\./g`,
i.e. whether the substring "/." occurs anywhere; on a match it emits a
sync-file error and fails with `STATUS_NOT_SUPPORTED` before any HTTP
request is issued. -/

/-- NT status codes that the embedded operations distinguish. -/
inductive NtStatus where
  | accessDenied
  | unsuccessful
  | notSupported
  | fromSystem
deriving DecidableEq, Repr

/-- Whether the character list contains the substring "/." (the effect of
`path.match(/\/\./g)` being truthy). -/
def dotMatch : List Char → Bool
  | [] => false
  | c :: rest => (c == '/' && rest.head? == some '.') || dotMatch rest

/-- Observable outcome of a DAM remote operation: the sync-file-error
events emitted (carrying the path), the HTTP requests issued, and the
error status handed to the callback (`none` on success). -/
structure OpOutcome where
  syncFileErrors : List (List Char)
  httpRequests : List (List Char)
  result : Option NtStatus
deriving DecidableEq, Repr

/-- The outcome produced by `checkDotFile` on a match: one sync-file
error for the path, no HTTP request, `STATUS_NOT_SUPPORTED` to the
callback. -/
def dotFileFailure (path : List Char) : OpOutcome :=
  ⟨[path], [], some .notSupported⟩

/-- `DAMShare.prototype._updateResource`: guarded by `checkDotFile`;
`rest` is the outcome of the non-dot-path branch. -/
def updateResource (path : List Char) (rest : OpOutcome) : OpOutcome :=
  if dotMatch path then dotFileFailure path else rest

/-- `DAMShare.prototype._createFileResource`: guarded by `checkDotFile`. -/
def createFileResource (path : List Char) (rest : OpOutcome) : OpOutcome :=
  if dotMatch path then dotFileFailure path else rest

/-- `DAMShare.prototype._deleteResource`: guarded by `checkDotFile`. -/
def deleteResource (path : List Char) (rest : OpOutcome) : OpOutcome :=
  if dotMatch path then dotFileFailure path else rest

/-- Render a nonempty sequence of path segments as a slash-delimited
absolute path: `renderPath [a, b]` is "/a/b" as characters. -/
def renderPath : List (List Char) → List Char
  | [] => []
  | seg :: rest => '/' :: (seg ++ renderPath rest)

/-! ## DAMShare chunked uploader

The asynchronous `_doChunkUpload` / `_uploadChunk` pair is embedded as a
fuel-indexed loop over an explicit state.  The HTTP layer is an oracle
`resp : Nat → ChunkResp` giving the response to the n-th issued request;
`rawProgress : Nat → List Int` gives the raw byte counts the transfer
monitor reports during the n-th request; `onChunk` gives the cancel
decision of the n-th invocation of the caller's between-chunks callback.
The run result carries the trace of emitted share events and issued
requests. -/

/-- Error values flowing through the upload callbacks: `plain` is a bare
`SMBError`; `wrapped` is the `{error: ..., ignoreEmit: true}` object
produced by the request-abort handler. -/
inductive UploadErr where
  | plain (status : NtStatus)
  | wrapped (status : NtStatus)
deriving DecidableEq, Repr

/-- Outcome of one HTTP chunk request, as seen by `_uploadChunk`'s
response handler: a transport error, an abort of the request, or a
response status code. -/
inductive ChunkResp where
  | netErr
  | abortSignal
  | status (code : Nat)
deriving DecidableEq, Repr

/-- `_uploadChunk`'s chunk length: the fixed chunk size, except that the
final chunk is truncated to the remaining bytes. -/
def chunkLen (totalSize chunkSizeFixed chunkOffset : Nat) : Nat :=
  if chunkOffset + chunkSizeFixed < totalSize then chunkSizeFixed else totalSize - chunkOffset

/-- `_uploadChunk`'s response handler: transport errors become system
errors, status 423 becomes `STATUS_ACCESS_DENIED`, any other non-200/201
status becomes `STATUS_UNSUCCESSFUL`, success yields the chunk length;
an aborted request yields the wrapped (`ignoreEmit`) error. -/
def uploadChunkResult (resp : ChunkResp) (chunkSize : Nat) : Except UploadErr Nat :=
  match resp with
  | .netErr => .error (.plain .fromSystem)
  | .abortSignal => .error (.wrapped .unsuccessful)
  | .status code =>
    if code == 423 then .error (.plain .accessDenied)
    else if code != 200 && code != 201 then .error (.plain .unsuccessful)
    else .ok chunkSize

/-- The transfer monitor's adjustment of a raw progress value before it
is emitted: `progress.read = progress.read + chunkOffset - chunkSize`. -/
def emittedRead (raw : Int) (chunkOffset chunkSize : Nat) : Int :=
  raw + chunkOffset - chunkSize

/-- Record of one issued chunk request: its file offset, chunk length,
the delay slept before it, the loop's retry counter when it was issued,
and the response it received. -/
structure Req where
  offset : Nat
  len : Nat
  delayBefore : Nat
  retriesBefore : Nat
  resp : ChunkResp
deriving DecidableEq, Repr

/-- Trace elements of an upload run: the share events
(`syncfilestart` / `syncfileend` / `syncfileerr` / `syncfileprogress`)
and the issued chunk requests. -/
inductive UpEvent where
  | fileStart
  | fileEnd
  | fileErr (status : NtStatus)
  | progress (read : Int) (total : Nat)
  | request (r : Req)
deriving DecidableEq, Repr

/-- Static inputs of an upload run. -/
structure UploadCfg where
  totalSize : Nat
  chunkSizeFixed : Nat
  maxRetries : Nat
  retryDelay : Nat
  resp : Nat → ChunkResp
  rawProgress : Nat → List Int
  onChunk : Option (Nat → Bool)

/-- Mutable state of `_doChunkUpload`'s `whilst` loop.  `cancelled`
records whether some `onChunk` invocation signalled cancellation. -/
structure LoopSt where
  chunkOffset : Nat
  retries : Nat
  currDelay : Nat
  continueUpload : Bool
  reqCount : Nat
  onChunkCount : Nat
  cancelled : Bool

/-- Result of a terminated upload run. -/
structure RunResult where
  events : List UpEvent
  cbErr : Option UploadErr
  cancelled : Bool
deriving DecidableEq, Repr

/-- `_completeUpload`: success emits `syncfileend`; a plain error emits
`syncfileerr`; a wrapped (abort) error emits nothing and the callback
receives the unwrapped error. -/
def completeUpload (err : Option UploadErr) (cancelled : Bool) : RunResult :=
  match err with
  | none => ⟨[.fileEnd], none, cancelled⟩
  | some (.plain st) => ⟨[.fileErr st], some (.plain st), cancelled⟩
  | some (.wrapped st) => ⟨[], some (.plain st), cancelled⟩

/-- Prepend trace elements to a run result. -/
def consEvents (evs : List UpEvent) (r : RunResult) : RunResult :=
  { r with events := evs ++ r.events }

/-- The chunk length `_uploadChunk` computes for the current loop
state. -/
def chunkLenOf (cfg : UploadCfg) (st : LoopSt) : Nat :=
  chunkLen cfg.totalSize cfg.chunkSizeFixed st.chunkOffset

/-- Outcome of the chunk request issued in the current loop state. -/
def attemptRes (cfg : UploadCfg) (st : LoopSt) : Except UploadErr Nat :=
  uploadChunkResult (cfg.resp st.reqCount) (chunkLenOf cfg st)

/-- The trace of one loop iteration: the issued request, followed by the
progress events the transfer monitor emits during it. -/
def stepEvents (cfg : UploadCfg) (st : LoopSt) : List UpEvent :=
  .request ⟨st.chunkOffset, chunkLenOf cfg st, st.currDelay, st.retries, cfg.resp st.reqCount⟩
    :: (cfg.rawProgress st.reqCount).map
        (fun raw => .progress (emittedRead raw st.chunkOffset (chunkLenOf cfg st)) cfg.totalSize)

/-- The retry counter after the attempt: reset on success, forced to
`maxRetries` by an abort, incremented by any other failure. -/
def retriesAfter (cfg : UploadCfg) (st : LoopSt) : Nat :=
  match attemptRes cfg st with
  | .ok _ => 0
  | .error (.wrapped _) => cfg.maxRetries
  | .error (.plain _) => st.retries + 1

/-- The chunk offset after the attempt: advanced by the uploaded chunk's
length on success, unchanged on failure. -/
def offsetAfter (cfg : UploadCfg) (st : LoopSt) : Nat :=
  match attemptRes cfg st with
  | .ok n => st.chunkOffset + n
  | .error _ => st.chunkOffset

/-- The delay before the next request: zero after a success, the
configured retry delay after a failure. -/
def delayAfter (cfg : UploadCfg) (st : LoopSt) : Nat :=
  match attemptRes cfg st with
  | .ok _ => 0
  | .error (.wrapped _) => st.currDelay
  | .error (.plain _) => cfg.retryDelay

/-- The cancel decision of the `onChunk` callback for this iteration
(`false` when no callback was supplied). -/
def cancelNow (cfg : UploadCfg) (st : LoopSt) : Bool :=
  match cfg.onChunk with
  | some dec => dec st.onChunkCount
  | none => false

/-- The error the loop hands to `_completeUpload` when the retry bound
is reached. -/
def haltErr (cfg : UploadCfg) (st : LoopSt) : Option UploadErr :=
  match attemptRes cfg st with
  | .ok _ => none
  | .error e => some e

/-- The loop state for the next iteration. -/
def nextState (cfg : UploadCfg) (st : LoopSt) : LoopSt :=
  { chunkOffset := offsetAfter cfg st
    retries := retriesAfter cfg st
    currDelay := delayAfter cfg st
    continueUpload :=
      match cfg.onChunk with
      | some _ => !cancelNow cfg st
      | none => st.continueUpload
    reqCount := st.reqCount + 1
    onChunkCount :=
      match cfg.onChunk with
      | some _ => st.onChunkCount + 1
      | none => st.onChunkCount
    cancelled := st.cancelled || cancelNow cfg st }

/-- Result of one iteration of the loop: either it halts with the
attempt's error (retry bound reached) or it proceeds to the next
state. -/
inductive LoopOut where
  | halt (errOpt : Option UploadErr)
  | step (st' : LoopSt)

/-- One iteration of `_doChunkUpload`'s `whilst` body. -/
def stepOnce (cfg : UploadCfg) (st : LoopSt) : List UpEvent × LoopOut :=
  (stepEvents cfg st,
    if retriesAfter cfg st ≥ cfg.maxRetries then .halt (haltErr cfg st)
    else .step (nextState cfg st))

/-- The `async.whilst` loop of `_doChunkUpload`: while bytes remain and
no cancellation was signalled, sleep the current delay, issue the next
chunk request and dispatch on its outcome; when the retry counter
reaches `maxRetries` the loop completes with the attempt's error,
otherwise the optional `onChunk` callback may cancel the upload before
the next iteration.  `none` means the fuel ran out before the loop
terminated. -/
def runLoop (cfg : UploadCfg) : Nat → LoopSt → Option RunResult
  | 0, _ => none
  | fuel + 1, st =>
    if st.chunkOffset < cfg.totalSize ∧ st.continueUpload = true then
      match stepOnce cfg st with
      | (evs, .halt errOpt) => some (consEvents evs (completeUpload errOpt st.cancelled))
      | (evs, .step st') =>
        match runLoop cfg fuel st' with
        | none => none
        | some r => some (consEvents evs r)
    else
      some (completeUpload none st.cancelled)

/-- Initial loop state: upload starts at `fromOffset` with no pending
retries or delay. -/
def initLoopSt (fromOffset : Nat) : LoopSt :=
  ⟨fromOffset, 0, 0, true, 0, 0, false⟩

/-- The portion of `_doChunkUpload` following a successful `fs.stat`:
emit `syncfilestart`, then run the chunk loop. -/
def runUploadLoop (cfg : UploadCfg) (fuel fromOffset : Nat) : Option RunResult :=
  match runLoop cfg fuel (initLoopSt fromOffset) with
  | none => none
  | some r => some { r with events := .fileStart :: r.events }

/-- Environment of one `_doChunkUpload` call: whether it is a replacing
upload, the result the remote returns for the checked-out query, whether
`fs.stat` on the local file succeeds, and the starting offset. -/
structure UploadPre where
  replace : Bool
  readOnlyCheck : Except UploadErr Bool
  statOk : Bool
  fromOffset : Nat

/-- `_doChunkUpload`: a replacing upload first checks the checked-out
status and completes with `STATUS_ACCESS_DENIED` when the asset is
checked out; a failing `fs.stat` reports a system error without emitting
any event; otherwise the chunk loop runs after `syncfilestart`. -/
def doChunkUpload (cfg : UploadCfg) (a : UploadPre) (fuel : Nat) : Option RunResult :=
  if a.replace then
    match a.readOnlyCheck with
    | .error e => some (completeUpload (some e) false)
    | .ok true => some (completeUpload (some (.plain .accessDenied)) false)
    | .ok false =>
      if a.statOk then runUploadLoop cfg fuel a.fromOffset
      else some ⟨[], some (.plain .fromSystem), false⟩
  else
    if a.statOk then runUploadLoop cfg fuel a.fromOffset
    else some ⟨[], some (.plain .fromSystem), false⟩

/-- JavaScript `v || d` on an optional number: absent or zero falls back
to the default. -/
def jsOr (v : Option Nat) (d : Nat) : Nat :=
  match v with
  | none => d
  | some n => if n = 0 then d else n

/-- The configured chunk size in bytes: `chunkUploadSize` megabytes,
defaulting to 10. -/
def chunkSizeFixedOf (chunkUploadSize : Option Nat) : Nat :=
  jsOr chunkUploadSize 10 * (1024 * 1024)

/-- The configured retry bound, defaulting to 3. -/
def maxRetriesOf (v : Option Nat) : Nat :=
  jsOr v 3

/-- The configured retry delay in milliseconds, defaulting to 3000. -/
def retryDelayOf (v : Option Nat) : Nat :=
  jsOr v 3000

/-- The chunk requests recorded in a trace, in issue order. -/
def reqsOf (evs : List UpEvent) : List Req :=
  evs.filterMap (fun ev => match ev with | .request r => some r | _ => none)

/-- Whether an event is `syncfilestart`. -/
def isStartEv : UpEvent → Bool :=
  fun ev => match ev with | .fileStart => true | _ => false

/-- Whether an event is terminal (`syncfileend` or `syncfileerr`). -/
def isTerminalEv : UpEvent → Bool :=
  fun ev => match ev with | .fileEnd => true | .fileErr _ => true | _ => false

/-- Whether an event is `syncfileprogress`. -/
def isProgressEv : UpEvent → Bool :=
  fun ev => match ev with | .progress _ _ => true | _ => false

/-- The terminal events of a trace. -/
def terminalsOf (evs : List UpEvent) : List UpEvent :=
  evs.filter isTerminalEv

/-- Whether a chunk response is a success (status 200 or 201). -/
def respOk : ChunkResp → Bool :=
  fun r => match r with | .status code => code == 200 || code == 201 | _ => false
/-! ## Step relation on issued requests and concrete instances -/

/-- Relation between consecutive issued requests: after a success the
next request starts where the previous chunk ended, with no delay and a
reset retry counter; after a failure the same offset is retried after
`retryDelay` with the counter incremented. -/
def reqStep (cfg : UploadCfg) (q q' : Req) : Prop :=
  if respOk q.resp then
    q'.offset = q.offset + q.len ∧ q'.delayBefore = 0 ∧ q'.retriesBefore = 0
  else
    q'.offset = q.offset ∧ q'.delayBefore = cfg.retryDelay ∧ q'.retriesBefore = q.retriesBefore + 1

/-- The first request of a request list (if any) reflects the loop
state it was issued from. -/
def headReq (st : LoopSt) (L : List Req) : Prop :=
  ∀ q ∈ L.head?, q.offset = st.chunkOffset ∧ q.delayBefore = st.currDelay
    ∧ q.retriesBefore = st.retries

/-- Upload of 10 bytes in 4-byte chunks whose `onChunk` callback cancels
at its second invocation. -/
def c3cfg : UploadCfg :=
  ⟨10, 4, 3, 3000, fun _ => .status 201, fun _ => [], some (fun i => i == 1)⟩

/-- A non-replacing upload from offset 0 whose local stat succeeds. -/
def samplePre : UploadPre := ⟨false, .ok false, true, 0⟩

/-- The run `doChunkUpload c3cfg samplePre 10` produces. -/
def c3run : RunResult :=
  ⟨[.fileStart, .request ⟨0, 4, 0, 0, .status 201⟩, .request ⟨4, 4, 0, 0, .status 201⟩,
    .fileEnd], none, true⟩

/-- Upload of 10 bytes in 4-byte chunks whose second request fails with
a transport error. -/
def c5cfg : UploadCfg :=
  ⟨10, 4, 3, 3000, fun i => if i == 1 then .netErr else .status 200, fun _ => [], none⟩

/-- The run `doChunkUpload c5cfg samplePre 10` produces. -/
def c5run : RunResult :=
  ⟨[.fileStart, .request ⟨0, 4, 0, 0, .status 200⟩, .request ⟨4, 4, 0, 0, .netErr⟩,
    .request ⟨4, 4, 3000, 1, .status 200⟩, .request ⟨8, 2, 0, 0, .status 200⟩,
    .fileEnd], none, false⟩

/-- Single-chunk upload whose first request receives HTTP 423 and whose
second receives 201; configuration values are the defaults. -/
def c4cfg : UploadCfg :=
  ⟨5, chunkSizeFixedOf none, maxRetriesOf none, retryDelayOf none,
    fun i => if i == 0 then .status 423 else .status 201, fun _ => [], none⟩

/-- The run `doChunkUpload c4cfg samplePre 10` produces. -/
def c4run : RunResult :=
  ⟨[.fileStart, .request ⟨0, 5, 0, 0, .status 423⟩, .request ⟨0, 5, 3000, 1, .status 201⟩,
    .fileEnd], none, false⟩

/-- Single-chunk upload in which every request receives HTTP 423. -/
def c4lockcfg : UploadCfg :=
  ⟨5, chunkSizeFixedOf none, 3, 3000, fun _ => .status 423, fun _ => [], none⟩

/-- The run `doChunkUpload c4lockcfg samplePre 10` produces. -/
def c4lockrun : RunResult :=
  ⟨[.fileStart, .request ⟨0, 5, 0, 0, .status 423⟩, .request ⟨0, 5, 3000, 1, .status 423⟩,
    .request ⟨0, 5, 3000, 2, .status 423⟩, .fileErr .accessDenied],
    some (.plain .accessDenied), false⟩

/-- Single-chunk upload whose transfer monitor reports one raw progress
value of 3 bytes during the first request. -/
def c8cfg : UploadCfg :=
  ⟨5, chunkSizeFixedOf none, maxRetriesOf none, retryDelayOf none,
    fun _ => .status 201, fun i => if i == 0 then [3] else [], none⟩

/-- The run `doChunkUpload c8cfg samplePre 10` produces. -/
def c8run : RunResult :=
  ⟨[.fileStart, .request ⟨0, 5, 0, 0, .status 201⟩, .progress (-2) 5, .fileEnd],
    none, false⟩

/-- Concrete witness for the download-coordinator theorem. -/
def sampleShare : RQShareState :=
  ⟨fun q => q == "/a", fun q => if q == "/a" then some [1, 2] else none⟩

/-- A share state whose `downloadingFiles` map marks the temp path. -/
def sampleTempShare : RQShareState :=
  ⟨fun q => q == "/sub/.tmp", fun _ => none⟩

/-- Concrete list cache holding one entry for "/dir". -/
def sampleListCache : String → Option ListCacheEntry :=
  fun p => if p == "/dir" then some ⟨1000, ["/dir/a", "/dir/b"]⟩ else none

/-- Concrete rehydration function for the list-cache witness. -/
def sampleOpen : String → Except Unit Nat :=
  fun n => .ok n.length

/-- The empty queue. -/
def sampleQueue : String → Option QMethod := fun _ => none

/-- Path segments "/a/.b/c": the dot segment is not the last one. -/
def sampleDotSegs : List (List Char) := [['a'], ['.', 'b'], ['c']]

/-! ## Theorems: download coordinator -/

/-- Claim C1: when a path is marked downloading, `setDownloading(path, false)`
invokes every waiter registered for it exactly once (in registration
order) and leaves the waiter list empty; `waitOnDownload` on a
downloading path registers its callback without invoking it, and on a
non-downloading path invokes the callback immediately without
registering a waiter. -/
theorem setDownloading_notifies_all_waiters (s : RQShareState) (p : String) (cb : Nat)
    (hdl : isDownloading s p = true) :
    ((setDownloading s p false).2 = waitersOf s p
      ∧ waitersOf (setDownloading s p false).1 p = []
      ∧ isDownloading (setDownloading s p false).1 p = false)
    ∧ ((waitOnDownload s p cb).2 = []
      ∧ waitersOf (waitOnDownload s p cb).1 p = waitersOf s p ++ [cb])
    ∧ (∀ (q : RQShareState) (c : Nat), isDownloading q p = false →
        waitOnDownload q p c = (q, [c])) := by
  have htemp : isTempFileName p = false := by
    by_contra hx
    have hx' : isTempFileName p = true := by simpa using hx
    simp [isDownloading, hx'] at hdl
  have hdf : s.downloadingFiles p = true := by
    simpa [isDownloading, htemp] using hdl
  refine ⟨?_, ⟨?_, ?_⟩, ?_⟩
  · rcases hw : s.waits p with _ | ws <;>
      simp [setDownloading, hdl, notifyDownloadComplete, hw, waitersOf, setMap,
        isDownloading, htemp, hdf, ite_self]
  · simp [waitOnDownload, hdl]
  · simp [waitOnDownload, hdl, waitersOf, setMap]
  · intro q c h
    simp [waitOnDownload, h]

theorem setDownloading_notifies_all_waiters_witness :
    isDownloading sampleShare "/a" = true
    ∧ (((setDownloading sampleShare "/a" false).2 = waitersOf sampleShare "/a"
        ∧ waitersOf (setDownloading sampleShare "/a" false).1 "/a" = []
        ∧ isDownloading (setDownloading sampleShare "/a" false).1 "/a" = false)
      ∧ ((waitOnDownload sampleShare "/a" 7).2 = []
        ∧ waitersOf (waitOnDownload sampleShare "/a" 7).1 "/a" = waitersOf sampleShare "/a" ++ [7])
      ∧ (∀ (q : RQShareState) (c : Nat), isDownloading q "/a" = false →
          waitOnDownload q "/a" c = (q, [c]))) :=
  ⟨by decide, setDownloading_notifies_all_waiters sampleShare "/a" 7 (by decide)⟩

/-- Claim C10: a temp path (last segment beginning with a period) is never
reported as downloading, whatever the `downloadingFiles` map holds, so
`waitOnDownload` on a temp path always invokes its callback immediately
and registers nothing. -/
theorem tempPath_never_downloading (s : RQShareState) (p : String) (cb : Nat)
    (ht : isTempFileName p = true) :
    isDownloading s p = false ∧ waitOnDownload s p cb = (s, [cb]) := by
  have h1 : isDownloading s p = false := by simp [isDownloading, ht]
  exact ⟨h1, by simp [waitOnDownload, h1]⟩

theorem tempPath_never_downloading_witness :
    isTempFileName "/sub/.tmp" = true
    ∧ (isDownloading sampleTempShare "/sub/.tmp" = false
      ∧ waitOnDownload sampleTempShare "/sub/.tmp" 3 = (sampleTempShare, [3])) :=
  ⟨by decide, tempPath_never_downloading sampleTempShare "/sub/.tmp" 3 (by decide)⟩

/-! ## Theorems: list cache -/

/-- Rehydrating a list through a tree whose `open` always succeeds maps
`open` over the stored names in order. -/
theorem openAll_map (tree : String → Except ε φ) (g : String → φ)
    (hg : ∀ n, tree n = .ok (g n)) : ∀ l : List String, openAll tree l = .ok (l.map g)
  | [] => by simp [openAll]
  | n :: rest => by simp [openAll, hg n, openAll_map tree g hg rest]

/-- Claim C6: a cached listing is returned (each name rehydrated via the
tree's `open`, in stored order) exactly when `now - timestamp` is at
most the TTL; an older entry is cleared and the lookup is a miss; and
the TTL defaults to 30000 whenever the configured value is not a
number. -/
theorem getListCache_ttl (cache : String → Option ListCacheEntry) (ttl now : Int)
    (tree : String → Except ε φ) (path : String) (entry : ListCacheEntry)
    (hc : cache path = some entry) :
    (now - entry.timestamp ≤ ttl →
        (getListCache cache ttl now tree path).1 = cache
        ∧ (∀ g : String → φ, (∀ n, tree n = .ok (g n)) →
            (getListCache cache ttl now tree path).2 = .ok (some (entry.files.map g))))
    ∧ (now - entry.timestamp > ttl →
        (getListCache cache ttl now tree path).1 path = none
        ∧ (getListCache cache ttl now tree path).2 = .ok none)
    ∧ (∀ v : JSVal, (∀ n : Int, v ≠ .num n) → contentCacheTTLOf v = 30000) := by
  refine ⟨fun hfresh => ?_, fun hold => ?_, fun v hv => ?_⟩
  · have hnot : ¬ now - entry.timestamp > ttl := not_lt.mpr hfresh
    constructor
    · simp [getListCache, hc, hnot]
    · intro g hg
      simp [getListCache, hc, hnot, openAll_map tree g hg entry.files]
  · constructor <;> simp [getListCache, hc, hold, setMap]
  · cases v with
    | num n => exact absurd rfl (hv n)
    | str s => rfl
    | boolean b => rfl
    | undef => rfl

theorem getListCache_ttl_witness :
    sampleListCache "/dir" = some ⟨1000, ["/dir/a", "/dir/b"]⟩
    ∧ ((31000 - (1000 : Int) ≤ 30000 →
          (getListCache sampleListCache 30000 31000 sampleOpen "/dir").1 = sampleListCache
          ∧ (∀ g : String → Nat, (∀ n, sampleOpen n = .ok (g n)) →
              (getListCache sampleListCache 30000 31000 sampleOpen "/dir").2
                = .ok (some ((["/dir/a", "/dir/b"] : List String).map g))))
      ∧ (31000 - (1000 : Int) > 30000 →
          (getListCache sampleListCache 30000 31000 sampleOpen "/dir").1 "/dir" = none
          ∧ (getListCache sampleListCache 30000 31000 sampleOpen "/dir").2 = .ok none)
      ∧ (∀ v : JSVal, (∀ n : Int, v ≠ .num n) → contentCacheTTLOf v = 30000)) :=
  ⟨by decide, getListCache_ttl sampleListCache 30000 31000 sampleOpen "/dir"
    ⟨1000, ["/dir/a", "/dir/b"]⟩ (by decide)⟩

/-! ## Theorems: overlay existence check -/

/-- Claim C7: when the remote lookup fails during `exists` (the path being
neither locally cached nor temp-visible locally), the operation
completes without error and reports that the path does not exist. -/
theorem rqExists_remote_failure (isTemp deleteQueued : Bool) :
    rqExists isTemp false deleteQueued (.error ()) = .ok false := by
  cases isTemp <;> cases deleteQueued <;> rfl

/-! ## Theorems: request-queue MOVE coalescing -/

/-- Claim C2: a MOVE of a previously unqueued cached normal source to a normal
destination leaves exactly a DELETE entry for the source and a PUT entry
for the destination (all other paths untouched); a MOVE of a queued
normal source to a temp destination clears the source's entry and
enqueues nothing for any other path. -/
theorem queueDataMove_semantics (q : String → Option QMethod) (src dst : String)
    (hts : isTempFileName src = false) (htd : isTempFileName dst = false)
    (hsrc : q src = none) (hdst : q dst = none) (hne : src ≠ dst) :
    (queueDataMove q true src dst src = some .delete
      ∧ queueDataMove q true src dst dst = some .put
      ∧ ∀ p, p ≠ src → p ≠ dst → queueDataMove q true src dst p = q p)
    ∧ (∀ (q₂ : String → Option QMethod) (s₂ d₂ : String) (m : QMethod),
        isTempFileName s₂ = false → isTempFileName d₂ = true → q₂ s₂ = some m →
        queueDataMove q₂ true s₂ d₂ s₂ = none
        ∧ ∀ p, p ≠ s₂ → queueDataMove q₂ true s₂ d₂ p = q₂ p) := by
  refine ⟨⟨?_, ?_, ?_⟩, ?_⟩
  · simp [queueDataMove, hts, htd, enqueueMethod, setMap, hne, coalesceMethod]
  · simp [queueDataMove, hts, htd, enqueueMethod, setMap, Ne.symm hne, hdst, coalesceMethod]
  · intro p hps hpd
    simp [queueDataMove, hts, htd, enqueueMethod, setMap, hps, hpd]
  · intro q₂ s₂ d₂ m hts₂ htd₂ hq₂
    refine ⟨?_, fun p hp => ?_⟩
    · simp [queueDataMove, hts₂, htd₂, hq₂, setMap]
    · simp [queueDataMove, hts₂, htd₂, hq₂, setMap, hp]

theorem queueDataMove_semantics_witness :
    (isTempFileName "/a" = false ∧ isTempFileName "/b" = false
      ∧ sampleQueue "/a" = none ∧ sampleQueue "/b" = none ∧ "/a" ≠ "/b")
    ∧ ((queueDataMove sampleQueue true "/a" "/b" "/a" = some .delete
        ∧ queueDataMove sampleQueue true "/a" "/b" "/b" = some .put
        ∧ ∀ p, p ≠ "/a" → p ≠ "/b" → queueDataMove sampleQueue true "/a" "/b" p = sampleQueue p)
      ∧ (∀ (q₂ : String → Option QMethod) (s₂ d₂ : String) (m : QMethod),
          isTempFileName s₂ = false → isTempFileName d₂ = true → q₂ s₂ = some m →
          queueDataMove q₂ true s₂ d₂ s₂ = none
          ∧ ∀ p, p ≠ s₂ → queueDataMove q₂ true s₂ d₂ p = q₂ p)) :=
  ⟨⟨by decide, by decide, rfl, rfl, by decide⟩,
    queueDataMove_semantics sampleQueue "/a" "/b" (by decide) (by decide) rfl rfl (by decide)⟩

/-! ## Theorems: dot-file guard -/

/-- A trailing true `dotMatch` survives prepending characters. -/
theorem dotMatch_append_right (xs ys : List Char) (h : dotMatch ys = true) :
    dotMatch (xs ++ ys) = true := by
  induction xs with
  | nil => simpa using h
  | cons c rest ih => simp [dotMatch, ih]

/-- A path containing the substring "/." matches the dot-file check. -/
theorem dotMatch_append_dot (xs ys : List Char) :
    dotMatch (xs ++ '/' :: '.' :: ys) = true := by
  apply dotMatch_append_right
  simp [dotMatch]

/-- Rendering a segment list one of whose segments begins with a period
produces a path matched by the dot-file check. -/
theorem dotMatch_renderPath (segs : List (List Char)) (t : List Char)
    (h : ('.' :: t) ∈ segs) : dotMatch (renderPath segs) = true := by
  induction segs with
  | nil => cases h
  | cons seg rest ih =>
    rcases List.mem_cons.mp h with heq | hmem
    · subst heq
      simp [renderPath, dotMatch]
    · show dotMatch (('/' :: seg) ++ renderPath rest) = true
      exact dotMatch_append_right _ _ (ih hmem)

/-- Claim C9: for a path any of whose segments begins with a period, the DAM
remote operations `_updateResource`, `_createFileResource` and
`_deleteResource` emit a sync-file error for the path, issue no HTTP
request, and fail with `STATUS_NOT_SUPPORTED`, regardless of what the
non-dot branch would have done. -/
theorem dotSegment_operations_fail (segs : List (List Char)) (t : List Char)
    (h : ('.' :: t) ∈ segs) (rest : OpOutcome) :
    updateResource (renderPath segs) rest = dotFileFailure (renderPath segs)
    ∧ createFileResource (renderPath segs) rest = dotFileFailure (renderPath segs)
    ∧ deleteResource (renderPath segs) rest = dotFileFailure (renderPath segs)
    ∧ (dotFileFailure (renderPath segs)).httpRequests = []
    ∧ (dotFileFailure (renderPath segs)).syncFileErrors = [renderPath segs]
    ∧ (dotFileFailure (renderPath segs)).result = some .notSupported := by
  have hd := dotMatch_renderPath segs t h
  simp [updateResource, createFileResource, deleteResource, hd, dotFileFailure]

theorem dotSegment_operations_fail_witness :
    ('.' :: ['b']) ∈ sampleDotSegs
    ∧ (updateResource (renderPath sampleDotSegs) ⟨[], [['x']], none⟩
          = dotFileFailure (renderPath sampleDotSegs)
      ∧ createFileResource (renderPath sampleDotSegs) ⟨[], [['x']], none⟩
          = dotFileFailure (renderPath sampleDotSegs)
      ∧ deleteResource (renderPath sampleDotSegs) ⟨[], [['x']], none⟩
          = dotFileFailure (renderPath sampleDotSegs)
      ∧ (dotFileFailure (renderPath sampleDotSegs)).httpRequests = []
      ∧ (dotFileFailure (renderPath sampleDotSegs)).syncFileErrors = [renderPath sampleDotSegs]
      ∧ (dotFileFailure (renderPath sampleDotSegs)).result = some .notSupported) :=
  ⟨by decide, dotSegment_operations_fail sampleDotSegs ['b'] (by decide) ⟨[], [['x']], none⟩⟩

/-! ## Theorems: chunked uploader -/

theorem runLoop_succ (cfg : UploadCfg) (fuel : Nat) (st : LoopSt) :
    runLoop cfg (fuel + 1) st =
      if st.chunkOffset < cfg.totalSize ∧ st.continueUpload = true then
        (if retriesAfter cfg st ≥ cfg.maxRetries then
          some (consEvents (stepEvents cfg st) (completeUpload (haltErr cfg st) st.cancelled))
        else
          match runLoop cfg fuel (nextState cfg st) with
          | none => none
          | some r => some (consEvents (stepEvents cfg st) r))
      else some (completeUpload none st.cancelled) := by
  by_cases hg : st.chunkOffset < cfg.totalSize ∧ st.continueUpload = true
  · by_cases hh : retriesAfter cfg st ≥ cfg.maxRetries
    · simp [runLoop, stepOnce, hg, hh]
    · simp [runLoop, stepOnce, hg, hh]
  · simp [runLoop, hg]

theorem stepEvents_filter_not (cfg : UploadCfg) (st : LoopSt) (p : UpEvent → Bool)
    (hreq : ∀ r : Req, p (.request r) = false)
    (hprog : ∀ (read : Int) (tot : Nat), p (.progress read tot) = false) :
    (stepEvents cfg st).filter p = [] := by
  rw [List.filter_eq_nil_iff]
  intro a ha
  rcases List.mem_cons.mp ha with rfl | hm
  · simp [hreq]
  · obtain ⟨raw, _, rfl⟩ := List.mem_map.mp hm
    simp [hprog]

theorem stepEvents_no_start (cfg : UploadCfg) (st : LoopSt) :
    (stepEvents cfg st).filter isStartEv = [] :=
  stepEvents_filter_not cfg st isStartEv (fun _ => rfl) (fun _ _ => rfl)

theorem stepEvents_no_terminal (cfg : UploadCfg) (st : LoopSt) :
    (stepEvents cfg st).filter isTerminalEv = [] :=
  stepEvents_filter_not cfg st isTerminalEv (fun _ => rfl) (fun _ _ => rfl)

theorem attemptRes_not_wrapped (cfg : UploadCfg) (st : LoopSt)
    (hnab : cfg.resp st.reqCount ≠ .abortSignal) (s : NtStatus) :
    attemptRes cfg st ≠ .error (.wrapped s) := by
  unfold attemptRes uploadChunkResult
  cases h : cfg.resp st.reqCount with
  | netErr => simp
  | abortSignal => exact absurd h hnab
  | status code =>
    dsimp only
    split
    · simp
    · split <;> simp

theorem runLoop_trace (cfg : UploadCfg) (hnab : ∀ i, cfg.resp i ≠ .abortSignal) :
    ∀ (fuel : Nat) (st : LoopSt) (r : RunResult),
      runLoop cfg fuel st = some r →
      (st.cancelled = true → st.continueUpload = false) →
      (r.events.filter isStartEv = []
        ∧ (terminalsOf r.events).length = 1
        ∧ (terminalsOf r.events = [.fileEnd] ↔ r.cbErr = none)
        ∧ (r.cancelled = true → r.cbErr = none)) := by
  intro fuel
  induction fuel with
  | zero => intro st r hr _; simp [runLoop] at hr
  | succ n ih =>
    intro st r hr hcan
    rw [runLoop_succ] at hr
    by_cases hg : st.chunkOffset < cfg.totalSize ∧ st.continueUpload = true
    · rw [if_pos hg] at hr
      have hstc : st.cancelled = false := by
        cases hc : st.cancelled
        · rfl
        · exact absurd (hcan hc) (by simp [hg.2])
      by_cases hh : retriesAfter cfg st ≥ cfg.maxRetries
      · rw [if_pos hh, Option.some.injEq] at hr
        subst hr
        cases ha : attemptRes cfg st with
        | ok v =>
          have herr : haltErr cfg st = none := by simp [haltErr, ha]
          simp [consEvents, completeUpload, herr, terminalsOf, List.filter_append,
            stepEvents_no_start, stepEvents_no_terminal, isTerminalEv, isStartEv, hstc]
        | error e =>
          cases e with
          | plain s =>
            have herr : haltErr cfg st = some (.plain s) := by simp [haltErr, ha]
            simp [consEvents, completeUpload, herr, terminalsOf, List.filter_append,
              stepEvents_no_start, stepEvents_no_terminal, isTerminalEv, isStartEv, hstc]
          | wrapped s => exact absurd ha (attemptRes_not_wrapped cfg st (hnab _) s)
      · rw [if_neg hh] at hr
        rcases hrec : runLoop cfg n (nextState cfg st) with _ | r'
        · rw [hrec] at hr; cases hr
        · rw [hrec, Option.some.injEq] at hr
          subst hr
          have hinv : (nextState cfg st).cancelled = true →
              (nextState cfg st).continueUpload = false := by
            intro hc
            have hcn : cancelNow cfg st = true := by
              simpa [nextState, hstc] using hc
            cases ho : cfg.onChunk with
            | none => simp [cancelNow, ho] at hcn
            | some dec => simp [nextState, ho, hcn]
          obtain ⟨h1, h2, h3, h4⟩ := ih (nextState cfg st) r' hrec hinv
          refine ⟨?_, ?_, ?_, ?_⟩
          · simp [consEvents, List.filter_append, stepEvents_no_start, h1]
          · simpa [consEvents, terminalsOf, List.filter_append, stepEvents_no_terminal]
              using h2
          · simpa [consEvents, terminalsOf, List.filter_append, stepEvents_no_terminal]
              using h3
          · exact h4
    · rw [if_neg hg, Option.some.injEq] at hr
      subst hr
      simp [completeUpload, terminalsOf, isTerminalEv, isStartEv]

theorem reqsOf_stepEvents (cfg : UploadCfg) (st : LoopSt) :
    reqsOf (stepEvents cfg st)
      = [⟨st.chunkOffset, chunkLenOf cfg st, st.currDelay, st.retries, cfg.resp st.reqCount⟩] := by
  simp [reqsOf, stepEvents, List.filterMap_map, Function.comp]

theorem reqsOf_completeUpload (e : Option UploadErr) (c : Bool) :
    reqsOf (completeUpload e c).events = [] := by
  rcases e with _ | e
  · rfl
  · rcases e with s | s <;> rfl

theorem attemptRes_ok_val (cfg : UploadCfg) (st : LoopSt) (v : Nat)
    (h : attemptRes cfg st = .ok v) : v = chunkLenOf cfg st := by
  unfold attemptRes uploadChunkResult at h
  cases hr : cfg.resp st.reqCount with
  | netErr => rw [hr] at h; cases h
  | abortSignal => rw [hr] at h; cases h
  | status code =>
    rw [hr] at h
    dsimp only at h
    split at h
    · cases h
    · split at h
      · cases h
      · injection h with h; exact h.symm

theorem attemptRes_ok_iff (cfg : UploadCfg) (st : LoopSt) :
    respOk (cfg.resp st.reqCount) = true ↔ attemptRes cfg st = .ok (chunkLenOf cfg st) := by
  unfold attemptRes uploadChunkResult respOk
  cases cfg.resp st.reqCount with
  | netErr => simp
  | abortSignal => simp
  | status code =>
    dsimp only
    by_cases h4 : code = 423
    · subst h4; simp
    · by_cases h2 : code = 200
      · subst h2; simp
      · by_cases h3 : code = 201
        · subst h3; simp
        · simp [h2, h3, h4]

theorem runLoop_requests (cfg : UploadCfg) (fromOffset : Nat) :
    ∀ (fuel : Nat) (st : LoopSt) (r : RunResult),
      runLoop cfg fuel st = some r →
      st.retries < cfg.maxRetries →
      ((∃ k, st.chunkOffset = fromOffset + k * cfg.chunkSizeFixed)
        ∨ cfg.totalSize ≤ st.chunkOffset) →
      headReq st (reqsOf r.events)
      ∧ List.Chain' (reqStep cfg) (reqsOf r.events)
      ∧ ∀ q ∈ reqsOf r.events,
          q.len = chunkLen cfg.totalSize cfg.chunkSizeFixed q.offset
          ∧ q.offset < cfg.totalSize
          ∧ q.retriesBefore < cfg.maxRetries
          ∧ ∃ k, q.offset = fromOffset + k * cfg.chunkSizeFixed := by
  intro fuel
  induction fuel with
  | zero => intro st r hr _ _; simp [runLoop] at hr
  | succ n ih =>
    intro st r hr hret hoff
    rw [runLoop_succ] at hr
    by_cases hg : st.chunkOffset < cfg.totalSize ∧ st.continueUpload = true
    · rw [if_pos hg] at hr
      have hofk : ∃ k, st.chunkOffset = fromOffset + k * cfg.chunkSizeFixed := by
        rcases hoff with h | h
        · exact h
        · exact absurd hg.1 (not_lt.mpr h)
      have hq0len : chunkLenOf cfg st = chunkLen cfg.totalSize cfg.chunkSizeFixed st.chunkOffset := rfl
      by_cases hh : retriesAfter cfg st ≥ cfg.maxRetries
      · rw [if_pos hh, Option.some.injEq] at hr
        subst hr
        rw [consEvents, reqsOf, List.filterMap_append, ← reqsOf, ← reqsOf,
          reqsOf_stepEvents, reqsOf_completeUpload]
        refine ⟨?_, ?_, ?_⟩
        · intro q hq
          simp at hq
          subst hq
          exact ⟨rfl, rfl, rfl⟩
        · simp [List.chain'_singleton]
        · intro q hq
          simp at hq
          subst hq
          exact ⟨rfl, hg.1, hret, hofk⟩
      · rw [if_neg hh] at hr
        rcases hrec : runLoop cfg n (nextState cfg st) with _ | r'
        · rw [hrec] at hr; cases hr
        · rw [hrec, Option.some.injEq] at hr
          subst hr
          have hret' : (nextState cfg st).retries < cfg.maxRetries := not_le.mp hh
          have hoff' : (∃ k, (nextState cfg st).chunkOffset
                = fromOffset + k * cfg.chunkSizeFixed)
              ∨ cfg.totalSize ≤ (nextState cfg st).chunkOffset := by
            cases ha : attemptRes cfg st with
            | ok v =>
              have hv := attemptRes_ok_val cfg st v ha
              subst hv
              have hoa : (nextState cfg st).chunkOffset = st.chunkOffset + chunkLenOf cfg st := by
                show offsetAfter cfg st = _
                simp [offsetAfter, ha]
              rw [hoa]
              obtain ⟨k, hk⟩ := hofk
              by_cases hlast : st.chunkOffset + cfg.chunkSizeFixed < cfg.totalSize
              · left
                refine ⟨k + 1, ?_⟩
                have hlen : chunkLenOf cfg st = cfg.chunkSizeFixed := by
                  unfold chunkLenOf chunkLen
                  rw [if_pos hlast]
                rw [hlen, hk]
                ring
              · right
                have hlen : chunkLenOf cfg st = cfg.totalSize - st.chunkOffset := by
                  unfold chunkLenOf chunkLen
                  rw [if_neg hlast]
                rw [hlen]
                omega
            | error e =>
              left
              have hoa : (nextState cfg st).chunkOffset = st.chunkOffset := by
                show offsetAfter cfg st = _
                simp [offsetAfter, ha]
              rw [hoa]
              exact hofk
          obtain ⟨ihh, ihc, ihm⟩ := ih (nextState cfg st) r' hrec hret' hoff'
          rw [consEvents, reqsOf, List.filterMap_append, ← reqsOf, ← reqsOf,
            reqsOf_stepEvents] at *
          refine ⟨?_, ?_, ?_⟩
          · intro q hq
            simp at hq
            subst hq
            exact ⟨rfl, rfl, rfl⟩
          · rw [List.singleton_append, List.chain'_cons']
            refine ⟨?_, ihc⟩
            intro b hb
            obtain ⟨hb1, hb2, hb3⟩ := ihh b hb
            unfold reqStep
            by_cases hok : respOk (cfg.resp st.reqCount) = true
            · rw [if_pos hok]
              have ha := (attemptRes_ok_iff cfg st).mp hok
              refine ⟨?_, ?_, ?_⟩
              · rw [hb1]
                show offsetAfter cfg st = _
                simp [offsetAfter, ha]
              · rw [hb2]
                show delayAfter cfg st = 0
                simp [delayAfter, ha]
              · rw [hb3]
                show retriesAfter cfg st = 0
                simp [retriesAfter, ha]
            · rw [if_neg (by simpa using hok)]
              cases ha : attemptRes cfg st with
              | ok v =>
                have hv := attemptRes_ok_val cfg st v ha
                subst hv
                exact absurd ((attemptRes_ok_iff cfg st).mpr ha) hok
              | error e =>
                cases e with
                | plain s =>
                  refine ⟨?_, ?_, ?_⟩
                  · rw [hb1]
                    show offsetAfter cfg st = _
                    simp [offsetAfter, ha]
                  · rw [hb2]
                    show delayAfter cfg st = _
                    simp [delayAfter, ha]
                  · rw [hb3]
                    show retriesAfter cfg st = _
                    simp [retriesAfter, ha]
                | wrapped s =>
                  exfalso
                  apply hh
                  show retriesAfter cfg st ≥ _
                  simp [retriesAfter, ha]
          · intro q hq
            rcases List.mem_append.mp hq with hq | hq
            · simp at hq
              subst hq
              exact ⟨rfl, hg.1, hret, hofk⟩
            · exact ihm q hq
    · rw [if_neg hg, Option.some.injEq] at hr
      subst hr
      rw [reqsOf_completeUpload]
      refine ⟨?_, List.chain'_nil, ?_⟩
      · intro q hq; simp at hq
      · intro q hq; simp at hq

theorem attemptRes_locked (cfg : UploadCfg) (st : LoopSt)
    (h : cfg.resp st.reqCount = .status 423) :
    attemptRes cfg st = .error (.plain .accessDenied) := by
  unfold attemptRes uploadChunkResult
  rw [h]
  rfl

theorem runLoop_locked (cfg : UploadCfg) (hresp : ∀ i, cfg.resp i = .status 423)
    (honchunk : cfg.onChunk = none) :
    ∀ (fuel : Nat) (st : LoopSt) (r : RunResult),
      runLoop cfg fuel st = some r →
      st.retries < cfg.maxRetries → st.continueUpload = true →
      st.chunkOffset < cfg.totalSize →
      r.cbErr = some (.plain .accessDenied)
      ∧ (reqsOf r.events).length = cfg.maxRetries - st.retries
      ∧ (∀ q ∈ reqsOf r.events, q.offset = st.chunkOffset ∧ q.resp = .status 423)
      ∧ terminalsOf r.events = [.fileErr .accessDenied] := by
  intro fuel
  induction fuel with
  | zero => intro st r hr _ _ _; simp [runLoop] at hr
  | succ n ih =>
    intro st r hr hret hcont hofft
    rw [runLoop_succ] at hr
    rw [if_pos ⟨hofft, hcont⟩] at hr
    have ha := attemptRes_locked cfg st (hresp st.reqCount)
    have hretries : retriesAfter cfg st = st.retries + 1 := by
      simp [retriesAfter, ha]
    by_cases hh : retriesAfter cfg st ≥ cfg.maxRetries
    · rw [if_pos hh, Option.some.injEq] at hr
      subst hr
      have herr : haltErr cfg st = some (.plain .accessDenied) := by
        simp [haltErr, ha]
      have hmax : cfg.maxRetries - st.retries = 1 := by omega
      refine ⟨by simp [consEvents, completeUpload, herr], ?_, ?_, ?_⟩
      · rw [consEvents, reqsOf, List.filterMap_append, ← reqsOf, ← reqsOf,
          reqsOf_stepEvents, herr, reqsOf_completeUpload, hmax]
        rfl
      · intro q hq
        rw [consEvents, reqsOf, List.filterMap_append, ← reqsOf, ← reqsOf,
          reqsOf_stepEvents, herr, reqsOf_completeUpload] at hq
        simp at hq
        subst hq
        exact ⟨rfl, hresp st.reqCount⟩
      · simp [consEvents, completeUpload, herr, terminalsOf, List.filter_append,
          stepEvents_no_terminal, isTerminalEv]
    · rw [if_neg hh] at hr
      rcases hrec : runLoop cfg n (nextState cfg st) with _ | r'
      · rw [hrec] at hr; cases hr
      · rw [hrec, Option.some.injEq] at hr
        subst hr
        have hst' : (nextState cfg st).retries = st.retries + 1 := hretries
        have hoff' : (nextState cfg st).chunkOffset = st.chunkOffset := by
          show offsetAfter cfg st = _
          simp [offsetAfter, ha]
        have hcont' : (nextState cfg st).continueUpload = true := by
          simp [nextState, honchunk, hcont]
        obtain ⟨ih1, ih2, ih3, ih4⟩ := ih (nextState cfg st) r' hrec
          (by omega) hcont' (by rw [hoff']; exact hofft)
        refine ⟨ih1, ?_, ?_, ?_⟩
        · rw [consEvents, reqsOf, List.filterMap_append, ← reqsOf, ← reqsOf,
            reqsOf_stepEvents]
          simp only [List.singleton_append, List.length_cons, ih2, hst']
          omega
        · intro q hq
          rw [consEvents, reqsOf, List.filterMap_append, ← reqsOf, ← reqsOf,
            reqsOf_stepEvents] at hq
          rcases List.mem_append.mp hq with hq | hq
          · simp at hq
            subst hq
            exact ⟨rfl, hresp st.reqCount⟩
          · obtain ⟨hq1, hq2⟩ := ih3 q hq
            exact ⟨by rw [hq1, hoff'], hq2⟩
        · simpa [consEvents, terminalsOf, List.filter_append, stepEvents_no_terminal]
            using ih4

theorem runLoop_progress_values (cfg : UploadCfg) :
    ∀ (fuel : Nat) (st : LoopSt) (r : RunResult),
      runLoop cfg fuel st = some r →
      ∀ ev ∈ r.events, isProgressEv ev = true →
        ∃ q ∈ reqsOf r.events, ∃ i, q.resp = cfg.resp i
          ∧ ∃ raw ∈ cfg.rawProgress i,
            ev = .progress (emittedRead raw q.offset q.len) cfg.totalSize := by
  intro fuel
  induction fuel with
  | zero => intro st r hr; simp [runLoop] at hr
  | succ n ih =>
    intro st r hr
    rw [runLoop_succ] at hr
    by_cases hg : st.chunkOffset < cfg.totalSize ∧ st.continueUpload = true
    · rw [if_pos hg] at hr
      by_cases hh : retriesAfter cfg st ≥ cfg.maxRetries
      · rw [if_pos hh, Option.some.injEq] at hr
        subst hr
        intro ev hev hprog
        rw [consEvents] at hev
        simp only [List.mem_append] at hev
        rcases hev with hev | hev
        · rcases List.mem_cons.mp hev with rfl | hm
          · simp [isProgressEv] at hprog
          · obtain ⟨raw, hraw, rfl⟩ := List.mem_map.mp hm
            refine ⟨⟨st.chunkOffset, chunkLenOf cfg st, st.currDelay, st.retries,
              cfg.resp st.reqCount⟩, ?_, st.reqCount, rfl, raw, hraw, rfl⟩
            rw [consEvents, reqsOf, List.filterMap_append, ← reqsOf, ← reqsOf,
              reqsOf_stepEvents]
            simp
        · exfalso
          rcases herr : haltErr cfg st with _ | e
          · rw [herr] at hev; simp [completeUpload] at hev; subst hev
            simp [isProgressEv] at hprog
          · rcases e with s | s <;> rw [herr] at hev <;> simp [completeUpload] at hev
            · subst hev; simp [isProgressEv] at hprog
      · rw [if_neg hh] at hr
        rcases hrec : runLoop cfg n (nextState cfg st) with _ | r'
        · rw [hrec] at hr; cases hr
        · rw [hrec, Option.some.injEq] at hr
          subst hr
          intro ev hev hprog
          rw [consEvents] at hev
          simp only [List.mem_append] at hev
          have hreqs : reqsOf (consEvents (stepEvents cfg st) r').events
              = ⟨st.chunkOffset, chunkLenOf cfg st, st.currDelay, st.retries,
                  cfg.resp st.reqCount⟩ :: reqsOf r'.events := by
            rw [consEvents, reqsOf, List.filterMap_append, ← reqsOf, ← reqsOf,
              reqsOf_stepEvents]
            rfl
          rcases hev with hev | hev
          · rcases List.mem_cons.mp hev with rfl | hm
            · simp [isProgressEv] at hprog
            · obtain ⟨raw, hraw, rfl⟩ := List.mem_map.mp hm
              refine ⟨⟨st.chunkOffset, chunkLenOf cfg st, st.currDelay, st.retries,
                cfg.resp st.reqCount⟩, ?_, st.reqCount, rfl, raw, hraw, rfl⟩
              rw [hreqs]
              exact List.mem_cons_self _ _
          · obtain ⟨q, hq, i, hqi, raw, hraw, hev'⟩ := ih (nextState cfg st) r' hrec ev hev hprog
            refine ⟨q, ?_, i, hqi, raw, hraw, hev'⟩
            rw [hreqs]
            exact List.mem_cons_of_mem _ hq
    · rw [if_neg hg, Option.some.injEq] at hr
      subst hr
      intro ev hev hprog
      simp [completeUpload] at hev
      subst hev
      simp [isProgressEv] at hprog

theorem runUploadLoop_eq (cfg : UploadCfg) (fuel fromOffset : Nat) (r : RunResult)
    (h : runUploadLoop cfg fuel fromOffset = some r) :
    ∃ r', runLoop cfg fuel (initLoopSt fromOffset) = some r'
      ∧ r = { r' with events := .fileStart :: r'.events } := by
  unfold runUploadLoop at h
  rcases hl : runLoop cfg fuel (initLoopSt fromOffset) with _ | r'
  · rw [hl] at h; cases h
  · rw [hl] at h
    injection h with h
    exact ⟨r', rfl, h.symm⟩

theorem doChunkUpload_proceeds (cfg : UploadCfg) (a : UploadPre) (fuel : Nat) (r : RunResult)
    (hpre : a.replace = false ∨ a.readOnlyCheck = .ok false)
    (hstat : a.statOk = true)
    (hrun : doChunkUpload cfg a fuel = some r) :
    runUploadLoop cfg fuel a.fromOffset = some r := by
  rcases hpre with h | h
  · simpa [doChunkUpload, h, hstat] using hrun
  · by_cases hb : a.replace = true
    · simpa [doChunkUpload, hb, h, hstat] using hrun
    · simpa [doChunkUpload, hb, hstat] using hrun

/-- Claim C3: every chunked upload (its checked-out precheck passing, its
local stat succeeding, and no request aborted) emits `syncfilestart`
exactly once, as the first trace element and hence before the first
chunk request; it emits exactly one terminal event, which is
`syncfileend` precisely when no error reaches the caller's callback; and
a cancellation signalled through `onChunk` always ends the upload with
`syncfileend` and no error. -/
theorem chunkUpload_event_discipline (cfg : UploadCfg) (a : UploadPre) (fuel : Nat)
    (r : RunResult)
    (hnab : ∀ i, cfg.resp i ≠ ChunkResp.abortSignal)
    (hpre : a.replace = false ∨ a.readOnlyCheck = .ok false)
    (hstat : a.statOk = true)
    (hrun : doChunkUpload cfg a fuel = some r) :
    (∃ evs, r.events = .fileStart :: evs ∧ evs.filter isStartEv = [])
    ∧ (terminalsOf r.events).length = 1
    ∧ (terminalsOf r.events = [.fileEnd] ↔ r.cbErr = none)
    ∧ (r.cancelled = true → r.cbErr = none) := by
  obtain ⟨r', hl, rfl⟩ := runUploadLoop_eq cfg fuel a.fromOffset r
    (doChunkUpload_proceeds cfg a fuel r hpre hstat hrun)
  obtain ⟨h1, h2, h3, h4⟩ := runLoop_trace cfg hnab fuel (initLoopSt a.fromOffset) r' hl
    (by simp [initLoopSt])
  refine ⟨⟨r'.events, rfl, h1⟩, ?_, ?_, h4⟩
  · simpa [terminalsOf, isTerminalEv] using h2
  · simpa [terminalsOf, isTerminalEv] using h3

theorem chunkUpload_event_discipline_witness :
    ((∀ i, c3cfg.resp i ≠ ChunkResp.abortSignal)
      ∧ (samplePre.replace = false ∨ samplePre.readOnlyCheck = .ok false)
      ∧ samplePre.statOk = true
      ∧ doChunkUpload c3cfg samplePre 10 = some c3run)
    ∧ ((∃ evs, c3run.events = .fileStart :: evs ∧ evs.filter isStartEv = [])
      ∧ (terminalsOf c3run.events).length = 1
      ∧ (terminalsOf c3run.events = [.fileEnd] ↔ c3run.cbErr = none)
      ∧ (c3run.cancelled = true → c3run.cbErr = none)) :=
  ⟨⟨fun i => by simp [c3cfg], Or.inl rfl, rfl, by decide⟩,
    chunkUpload_event_discipline c3cfg samplePre 10 c3run
      (fun i => by simp [c3cfg]) (Or.inl rfl) rfl (by decide)⟩

/-- Claim C5: in every terminating upload run, each issued chunk request
carries length `chunkSizeFixed` except a final truncated chunk, sits at
an offset `fromOffset + k * chunkSizeFixed` below the total size, and
was issued with fewer than `maxRetries` accumulated failures; the first
request starts at `fromOffset` with no delay; consecutive requests obey
the step relation (success advances the offset by the chunk length and
resets delay and retry counter to zero, failure repeats the same offset
after `retryDelay` with the counter incremented); and the defaults are
10 MB chunks, 3 retries, 3000 ms delay. -/
theorem chunkUpload_offsets_retries (cfg : UploadCfg) (a : UploadPre) (fuel : Nat)
    (r : RunResult)
    (hpre : a.replace = false ∨ a.readOnlyCheck = .ok false)
    (hstat : a.statOk = true)
    (hmax : 0 < cfg.maxRetries)
    (hrun : doChunkUpload cfg a fuel = some r) :
    (∀ q ∈ reqsOf r.events,
        q.len = chunkLen cfg.totalSize cfg.chunkSizeFixed q.offset
        ∧ q.offset < cfg.totalSize
        ∧ q.retriesBefore < cfg.maxRetries
        ∧ ∃ k, q.offset = a.fromOffset + k * cfg.chunkSizeFixed)
    ∧ List.Chain' (reqStep cfg) (reqsOf r.events)
    ∧ (∀ q ∈ (reqsOf r.events).head?,
        q.offset = a.fromOffset ∧ q.delayBefore = 0 ∧ q.retriesBefore = 0)
    ∧ chunkSizeFixedOf none = 10 * 1024 * 1024
    ∧ maxRetriesOf none = 3
    ∧ retryDelayOf none = 3000 := by
  obtain ⟨r', hl, rfl⟩ := runUploadLoop_eq cfg fuel a.fromOffset r
    (doChunkUpload_proceeds cfg a fuel r hpre hstat hrun)
  have hreqs : reqsOf (UpEvent.fileStart :: r'.events) = reqsOf r'.events := by
    simp [reqsOf]
  obtain ⟨hhd, hch, hmem⟩ := runLoop_requests cfg a.fromOffset fuel (initLoopSt a.fromOffset)
    r' hl hmax (Or.inl ⟨0, by simp [initLoopSt]⟩)
  refine ⟨?_, ?_, ?_, rfl, rfl, rfl⟩
  · intro q hq
    rw [hreqs] at hq
    exact hmem q hq
  · rw [hreqs]
    exact hch
  · intro q hq
    rw [hreqs] at hq
    exact hhd q hq

theorem chunkUpload_offsets_retries_witness :
    ((samplePre.replace = false ∨ samplePre.readOnlyCheck = .ok false)
      ∧ samplePre.statOk = true
      ∧ 0 < c5cfg.maxRetries
      ∧ doChunkUpload c5cfg samplePre 10 = some c5run)
    ∧ ((∀ q ∈ reqsOf c5run.events,
          q.len = chunkLen c5cfg.totalSize c5cfg.chunkSizeFixed q.offset
          ∧ q.offset < c5cfg.totalSize
          ∧ q.retriesBefore < c5cfg.maxRetries
          ∧ ∃ k, q.offset = samplePre.fromOffset + k * c5cfg.chunkSizeFixed)
      ∧ List.Chain' (reqStep c5cfg) (reqsOf c5run.events)
      ∧ (∀ q ∈ (reqsOf c5run.events).head?,
          q.offset = samplePre.fromOffset ∧ q.delayBefore = 0 ∧ q.retriesBefore = 0)
      ∧ chunkSizeFixedOf none = 10 * 1024 * 1024
      ∧ maxRetriesOf none = 3
      ∧ retryDelayOf none = 3000) :=
  ⟨⟨Or.inl rfl, rfl, by decide, by decide⟩,
    chunkUpload_offsets_retries c5cfg samplePre 10 c5run (Or.inl rfl) rfl (by decide) (by decide)⟩

/-- Claim C4, counterexample: a concrete upload whose first chunk request
receives HTTP 423 issues a second request for the same chunk (after the
3000 ms retry delay) and completes successfully, so a 423 neither fails
the upload immediately nor prevents further requests. -/
theorem chunk423_counterexample :
    doChunkUpload c4cfg samplePre 10 = some c4run
    ∧ c4run.events.get? 2 = some (.request ⟨0, 5, 3000, 1, .status 201⟩)
    ∧ (reqsOf c4run.events).length = 2
    ∧ c4run.cbErr = none := by
  refine ⟨by decide, by decide, by decide, rfl⟩

/-- Claim C4 (amended): a chunk request that receives HTTP 423 yields an
`ACCESS_DENIED` error for that attempt but is retried at the same offset
like any other failure; only when 423 responses persist for `maxRetries`
consecutive attempts does the upload fail, and then it fails with
`ACCESS_DENIED` and a single `syncfileerr`. -/
theorem chunk423_retried (cfg : UploadCfg) (a : UploadPre) (fuel : Nat) (r : RunResult)
    (hresp : ∀ i, cfg.resp i = .status 423)
    (honchunk : cfg.onChunk = none)
    (hpre : a.replace = false ∨ a.readOnlyCheck = .ok false)
    (hstat : a.statOk = true)
    (hmax : 0 < cfg.maxRetries)
    (htot : a.fromOffset < cfg.totalSize)
    (hrun : doChunkUpload cfg a fuel = some r) :
    r.cbErr = some (.plain .accessDenied)
    ∧ (reqsOf r.events).length = cfg.maxRetries
    ∧ (∀ q ∈ reqsOf r.events, q.offset = a.fromOffset ∧ q.resp = .status 423)
    ∧ terminalsOf r.events = [.fileErr .accessDenied] := by
  obtain ⟨r', hl, rfl⟩ := runUploadLoop_eq cfg fuel a.fromOffset r
    (doChunkUpload_proceeds cfg a fuel r hpre hstat hrun)
  have hreqs : reqsOf (UpEvent.fileStart :: r'.events) = reqsOf r'.events := by
    simp [reqsOf]
  obtain ⟨h1, h2, h3, h4⟩ := runLoop_locked cfg hresp honchunk fuel (initLoopSt a.fromOffset)
    r' hl hmax rfl htot
  refine ⟨h1, ?_, ?_, ?_⟩
  · rw [hreqs, h2]
    simp [initLoopSt]
  · intro q hq
    rw [hreqs] at hq
    exact h3 q hq
  · simpa [terminalsOf, isTerminalEv] using h4

theorem chunk423_retried_witness :
    ((∀ i, c4lockcfg.resp i = .status 423)
      ∧ c4lockcfg.onChunk = none
      ∧ (samplePre.replace = false ∨ samplePre.readOnlyCheck = .ok false)
      ∧ samplePre.statOk = true
      ∧ 0 < c4lockcfg.maxRetries
      ∧ samplePre.fromOffset < c4lockcfg.totalSize
      ∧ doChunkUpload c4lockcfg samplePre 10 = some c4lockrun)
    ∧ (c4lockrun.cbErr = some (.plain .accessDenied)
      ∧ (reqsOf c4lockrun.events).length = c4lockcfg.maxRetries
      ∧ (∀ q ∈ reqsOf c4lockrun.events,
          q.offset = samplePre.fromOffset ∧ q.resp = .status 423)
      ∧ terminalsOf c4lockrun.events = [.fileErr .accessDenied]) :=
  ⟨⟨fun i => rfl, rfl, Or.inl rfl, rfl, by decide, by decide, by decide⟩,
    chunk423_retried c4lockcfg samplePre 10 c4lockrun (fun i => rfl) rfl (Or.inl rfl) rfl
      (by decide) (by decide) (by decide)⟩

/-- Claim C8, counterexample: a concrete run in which the transfer
monitor reports 3 raw bytes for the single 5-byte chunk at offset 0
emits `syncfileprogress` with read `-2` (raw + offset - chunkSize),
not `3` (raw + offset) as the claim states. -/
theorem progress_counterexample :
    doChunkUpload c8cfg samplePre 10 = some c8run
    ∧ c8run.events.get? 2 = some (.progress (-2) 5)
    ∧ c8cfg.rawProgress 0 = [3]
    ∧ (-2 : Int) ≠ 3 + 0 := by
  refine ⟨by decide, by decide, by decide, by decide⟩

/-- Claim C8 (amended): every `syncfileprogress` event emitted during an
upload reports a read value equal to the monitor's raw byte count plus
the emitting chunk's starting offset minus that chunk's length, together
with the file's total size. -/
theorem progress_reads_adjusted (cfg : UploadCfg) (a : UploadPre) (fuel : Nat) (r : RunResult)
    (hpre : a.replace = false ∨ a.readOnlyCheck = .ok false)
    (hstat : a.statOk = true)
    (hrun : doChunkUpload cfg a fuel = some r) :
    ∀ ev ∈ r.events, isProgressEv ev = true →
      ∃ q ∈ reqsOf r.events, ∃ i, q.resp = cfg.resp i
        ∧ ∃ raw ∈ cfg.rawProgress i,
          ev = .progress (emittedRead raw q.offset q.len) cfg.totalSize := by
  obtain ⟨r', hl, rfl⟩ := runUploadLoop_eq cfg fuel a.fromOffset r
    (doChunkUpload_proceeds cfg a fuel r hpre hstat hrun)
  intro ev hev hprog
  have hev' : ev ∈ r'.events := by
    rcases List.mem_cons.mp hev with rfl | hm
    · simp [isProgressEv] at hprog
    · exact hm
  obtain ⟨q, hq, i, hqi, raw, hraw, hevp⟩ :=
    runLoop_progress_values cfg fuel (initLoopSt a.fromOffset) r' hl ev hev' hprog
  refine ⟨q, ?_, i, hqi, raw, hraw, hevp⟩
  simpa [reqsOf] using hq

theorem progress_reads_adjusted_witness :
    ((samplePre.replace = false ∨ samplePre.readOnlyCheck = .ok false)
      ∧ samplePre.statOk = true
      ∧ doChunkUpload c8cfg samplePre 10 = some c8run)
    ∧ (∀ ev ∈ c8run.events, isProgressEv ev = true →
        ∃ q ∈ reqsOf c8run.events, ∃ i, q.resp = c8cfg.resp i
          ∧ ∃ raw ∈ c8cfg.rawProgress i,
            ev = .progress (emittedRead raw q.offset q.len) c8cfg.totalSize) :=
  ⟨⟨Or.inl rfl, rfl, by decide⟩,
    progress_reads_adjusted c8cfg samplePre 10 c8run (Or.inl rfl) rfl (by decide)⟩

end NodeSmbServer
